import Mathlib

/-!
Shallow embedding of the `staking` Solana program (kr8tiv-launchpad):
state types `StakePool` / `UserStake`, the pure helpers `calculate_tier`,
`calculate_weight_multiplier`, `update_rewards`, `calculate_pending_rewards`
(from `src/lib.rs` and `src/state/mod.rs`), and the instruction handlers for
stake, unstake and claim_rewards (from `src/instructions/`).

Machine integers are modelled as `Nat` (u64 / u128) and `Int` (i64).
Rust `checked_*` operations become `Option`-valued guards lifted into
`Except StakingError` by `okOr`, matching the `.ok_or(StakingError::MathOverflow)?`
pattern of the source.  Unchecked Rust arithmetic (only present in
`calculate_weight_multiplier` and in `as u64` narrowing casts) is modelled
with explicit two's-complement wrapping / truncation (`% 2^64`, `% 2^128`),
the release-profile semantics the source relies on everywhere else via its
explicit `checked_*` calls.
-/

/-- Error codes of `src/errors.rs`. -/
inductive StakingError where
  | InvalidAmount
  | DurationTooShort
  | DurationTooLong
  | InsufficientStake
  | StillLocked
  | NoPendingRewards
  | MathOverflow
  | InvalidAuthority
  | PoolPaused
  | InvalidMint
deriving DecidableEq, Repr

/-- Staking tiers from `src/state/mod.rs`. -/
inductive StakingTier where
  | None
  | Holder
  | Premium
  | Vip
deriving DecidableEq, Repr

/-- Modulus of u64. -/
def U64MOD : Nat := 2 ^ 64

/-- Modulus of u128. -/
def U128MOD : Nat := 2 ^ 128

/-- Precision multiplier for accumulated rewards (constants::PRECISION = 1e12). -/
def PRECISION : Nat := 1000000000000

/-- Tier threshold: 1,000 tokens with 9 decimals. -/
def HOLDER_THRESHOLD : Nat := 1000000000000

/-- Tier threshold: 10,000 tokens with 9 decimals. -/
def PREMIUM_THRESHOLD : Nat := 10000000000000

/-- Tier threshold: 100,000 tokens with 9 decimals. -/
def VIP_THRESHOLD : Nat := 100000000000000

/-- Membership in the i64 value range. -/
def inI64 (x : Int) : Prop := -(2 ^ 63) ≤ x ∧ x < 2 ^ 63

instance (x : Int) : Decidable (inI64 x) := by unfold inI64; infer_instance

/-- Two's-complement wrap of an integer into the i64 range (Rust release-mode
overflow behaviour of unchecked i64 arithmetic). -/
def wrapI64 (x : Int) : Int := (x + 2 ^ 63) % 2 ^ 64 - 2 ^ 63

/-- Rust cast `x as u128` for `x : i64`: sign extension, i.e. the value modulo 2^128. -/
def i64ToU128 (x : Int) : Nat := (x % 2 ^ 128).toNat

/-- Rust `u64::checked_add`. -/
def chAdd64 (a b : Nat) : Option Nat := if a + b < U64MOD then some (a + b) else none

/-- Rust `u128::checked_add`. -/
def chAdd128 (a b : Nat) : Option Nat := if a + b < U128MOD then some (a + b) else none

/-- Rust `checked_sub` on unsigned integers (u64 or u128). -/
def chSubU (a b : Nat) : Option Nat := if b ≤ a then some (a - b) else none

/-- Rust `u128::checked_mul`. -/
def chMul128 (a b : Nat) : Option Nat := if a * b < U128MOD then some (a * b) else none

/-- Rust `u128::checked_div` (fails only on a zero divisor). -/
def chDivU (a b : Nat) : Option Nat := if b = 0 then none else some (a / b)

/-- Rust `i64::checked_sub`. -/
def chSubI64 (a b : Int) : Option Int := if inI64 (a - b) then some (a - b) else none

/-- Rust `i64::checked_add`. -/
def chAddI64 (a b : Int) : Option Int := if inI64 (a + b) then some (a + b) else none

/-- Rust `Option::ok_or(err)?` lifted to `Except`. -/
def okOr (o : Option α) (e : StakingError) : Except StakingError α :=
  match o with
  | some a => .ok a
  | none => .error e

/-- StakingTier::reward_multiplier_bps from `src/state/mod.rs`. -/
def reward_multiplier_bps : StakingTier → Nat
  | .None => 10000
  | .Holder => 11000
  | .Premium => 12500
  | .Vip => 15000

/-- StakingTier::platform_fee_bps from `src/state/mod.rs`. -/
def platform_fee_bps : StakingTier → Nat
  | .None => 500
  | .Holder => 400
  | .Premium => 200
  | .Vip => 0

/-- calculate_tier from `src/lib.rs`. -/
def calculate_tier (staked_amount : Nat) : StakingTier :=
  if VIP_THRESHOLD ≤ staked_amount then .Vip
  else if PREMIUM_THRESHOLD ≤ staked_amount then .Premium
  else if HOLDER_THRESHOLD ≤ staked_amount then .Holder
  else .None

/-- calculate_weight_multiplier from `src/lib.rs` (lines 135-155).  The i64
subtractions `max_duration - min_duration` and `duration - min_duration` and
the final u64 arithmetic are unchecked in the source, hence modelled with
wrapping; the `as u64` narrowing of `progress_bps` is a truncation. -/
def calculate_weight_multiplier (lock_duration min_duration max_duration : Int) : Nat :=
  let duration := min (max lock_duration min_duration) max_duration
  let range := wrapI64 (max_duration - min_duration)
  if range = 0 then 10000
  else
    let progress := wrapI64 (duration - min_duration)
    let progress_bps := (i64ToU128 progress * 10000 % U128MOD / i64ToU128 range) % U64MOD
    (10000 + 10000 * progress_bps % U64MOD / 10000) % U64MOD

/-- StakePool state (`src/state/mod.rs`), restricted to the fields the engine
reads or writes; pubkeys and the bump byte are identity plumbing handled by
the runtime and are omitted. -/
structure StakePool where
  total_staked : Nat
  total_weighted_stake : Nat
  reward_rate : Nat
  accumulated_reward_per_share : Nat
  last_reward_time : Int
  min_lock_duration : Int
  max_lock_duration : Int
  paused : Bool
deriving DecidableEq, Repr

/-- UserStake state (`src/state/mod.rs`), fields the engine reads or writes. -/
structure UserStake where
  staked_amount : Nat
  weighted_stake : Nat
  lock_end_time : Int
  lock_duration : Int
  reward_debt : Nat
  total_claimed : Nat
  stake_start_time : Int
deriving DecidableEq, Repr

/-- Zero-initialized UserStake, as produced by Anchor `init_if_needed`
(`#[derive(Default)]` on the struct). -/
def defaultUserStake : UserStake :=
  { staked_amount := 0
    weighted_stake := 0
    lock_end_time := 0
    lock_duration := 0
    reward_debt := 0
    total_claimed := 0
    stake_start_time := 0 }

/-- update_rewards from `src/lib.rs` (lines 166-201). -/
def update_rewards (p : StakePool) (current_time : Int) : Except StakingError StakePool :=
  if p.total_weighted_stake = 0 then
    .ok { p with last_reward_time := current_time }
  else do
    let time_elapsed ← okOr (chSubI64 current_time p.last_reward_time) .MathOverflow
    if time_elapsed ≤ 0 then
      .ok p
    else do
      let new_rewards ← okOr (chMul128 time_elapsed.toNat p.reward_rate) .MathOverflow
      let scaled ← okOr (chMul128 new_rewards PRECISION) .MathOverflow
      let reward_per_share_increase ← okOr (chDivU scaled p.total_weighted_stake) .MathOverflow
      let acc ← okOr (chAdd128 p.accumulated_reward_per_share reward_per_share_increase)
        .MathOverflow
      .ok { p with accumulated_reward_per_share := acc, last_reward_time := current_time }

/-- calculate_pending_rewards from `src/lib.rs` (lines 211-232).  The
`checked_sub(..).unwrap_or(0)` is exactly truncated Nat subtraction, and
`pending.min(u64::MAX as u128) as u64` is `min` with `2^64 - 1`. -/
def calculate_pending_rewards (u : UserStake) (accumulated_reward_per_share : Nat) :
    Except StakingError Nat :=
  if u.weighted_stake = 0 then
    .ok 0
  else do
    let prod ← okOr (chMul128 u.weighted_stake accumulated_reward_per_share) .MathOverflow
    let accumulated ← okOr (chDivU prod PRECISION) .MathOverflow
    let pending := accumulated - u.reward_debt
    .ok (min pending (U64MOD - 1))

/-- Lock-bookkeeping step of the stake handler
(`src/instructions/stake.rs`, lines 100-122): the first-stake initialization
(`is_first_stake` is `staked_amount == 0`) or the extend-only lock update. -/
def stake_update_position (us : UserStake) (lock_duration now : Int) :
    Except StakingError UserStake :=
  if us.staked_amount = 0 then do
    let lock_end ← okOr (chAddI64 now lock_duration) .MathOverflow
    Except.ok { us with
      stake_start_time := now
      lock_duration := lock_duration
      lock_end_time := lock_end }
  else do
    let new_lock_end ← okOr (chAddI64 now lock_duration) .MathOverflow
    if us.lock_end_time < new_lock_end then
      Except.ok { us with lock_end_time := new_lock_end, lock_duration := lock_duration }
    else
      Except.ok us

/-- Amount-bookkeeping step of the stake handler
(`src/instructions/stake.rs`, lines 124-150): position amounts, reward debt,
and pool totals, all with checked arithmetic. -/
def stake_finish (pool1 : StakePool) (us1 : UserStake) (amount weighted_amount : Nat) :
    Except StakingError (StakePool × UserStake) := do
  let sa ← okOr (chAdd64 us1.staked_amount amount) .MathOverflow
  let ws ← okOr (chAdd64 us1.weighted_stake weighted_amount) .MathOverflow
  let dprod ← okOr (chMul128 weighted_amount pool1.accumulated_reward_per_share) .MathOverflow
  let additional_debt ← okOr (chDivU dprod PRECISION) .MathOverflow
  let rd ← okOr (chAdd128 us1.reward_debt additional_debt) .MathOverflow
  let ts ← okOr (chAdd64 pool1.total_staked amount) .MathOverflow
  let tws ← okOr (chAdd64 pool1.total_weighted_stake weighted_amount) .MathOverflow
  .ok ({ pool1 with total_staked := ts, total_weighted_stake := tws },
    { us1 with staked_amount := sa, weighted_stake := ws, reward_debt := rd })

/-- Pure state transition of the stake handler
(`src/instructions/stake.rs`, lines 66-150): validation, accumulator update,
weighted amount, first-stake / lock-extension branch, position and pool
bookkeeping.  The token transfer and event emission are external effects; a
transfer failure aborts the whole transaction, so a completed operation is
exactly an `.ok` result here. -/
def stake_handler (pool : StakePool) (us : UserStake) (amount : Nat) (lock_duration now : Int) :
    Except StakingError (StakePool × UserStake) :=
  if pool.paused then .error .PoolPaused
  else if amount = 0 then .error .InvalidAmount
  else if lock_duration < pool.min_lock_duration then .error .DurationTooShort
  else if pool.max_lock_duration < lock_duration then .error .DurationTooLong
  else do
    let pool1 ← update_rewards pool now
    let weight_multiplier := calculate_weight_multiplier lock_duration
      pool1.min_lock_duration pool1.max_lock_duration
    let wprod ← okOr (chMul128 amount weight_multiplier) .MathOverflow
    let wq ← okOr (chDivU wprod 10000) .MathOverflow
    let weighted_amount := wq % U64MOD
    let us1 ← stake_update_position us lock_duration now
    stake_finish pool1 us1 amount weighted_amount

/-- Pure state transition of the unstake handler
(`src/instructions/unstake.rs`, lines 62-113). -/
def unstake_handler (pool : StakePool) (us : UserStake) (amount : Nat) (now : Int) :
    Except StakingError (StakePool × UserStake) :=
  if amount = 0 then .error .InvalidAmount
  else if us.staked_amount < amount then .error .InsufficientStake
  else if now < us.lock_end_time then .error .StillLocked
  else do
    let pool1 ← update_rewards pool now
    let wprod ← okOr (chMul128 amount us.weighted_stake) .MathOverflow
    let wq ← okOr (chDivU wprod us.staked_amount) .MathOverflow
    let weighted_to_remove := wq % U64MOD
    let dprod ← okOr (chMul128 amount us.reward_debt) .MathOverflow
    let debt_to_remove ← okOr (chDivU dprod us.staked_amount) .MathOverflow
    let sa ← okOr (chSubU us.staked_amount amount) .MathOverflow
    let ws ← okOr (chSubU us.weighted_stake weighted_to_remove) .MathOverflow
    let rd ← okOr (chSubU us.reward_debt debt_to_remove) .MathOverflow
    let ts ← okOr (chSubU pool1.total_staked amount) .MathOverflow
    let tws ← okOr (chSubU pool1.total_weighted_stake weighted_to_remove) .MathOverflow
    .ok ({ pool1 with total_staked := ts, total_weighted_stake := tws },
      { us with staked_amount := sa, weighted_stake := ws, reward_debt := rd })

/-- Pure state transition of the claim_rewards handler
(`src/instructions/claim_rewards.rs`, lines 62-106).  `vault_balance` is the
reward vault token balance read from the external token account. -/
def claim_rewards_handler (pool : StakePool) (us : UserStake) (now : Int) (vault_balance : Nat) :
    Except StakingError (StakePool × UserStake) :=
  if us.staked_amount = 0 then .error .InsufficientStake
  else do
    let pool1 ← update_rewards pool now
    let pending ← calculate_pending_rewards us pool1.accumulated_reward_per_share
    if pending = 0 then .error .NoPendingRewards
    else do
      let tier := calculate_tier us.staked_amount
      let tier_multiplier := reward_multiplier_bps tier
      let rprod ← okOr (chMul128 pending tier_multiplier) .MathOverflow
      let rq ← okOr (chDivU rprod 10000) .MathOverflow
      let reward_amount := rq % U64MOD
      let actual_reward := min reward_amount vault_balance
      if actual_reward = 0 then .error .NoPendingRewards
      else do
        let dprod ← okOr (chMul128 us.weighted_stake pool1.accumulated_reward_per_share)
          .MathOverflow
        let rd ← okOr (chDivU dprod PRECISION) .MathOverflow
        let tc ← okOr (chAdd64 us.total_claimed actual_reward) .MathOverflow
        .ok (pool1, { us with reward_debt := rd, total_claimed := tc })

/-- System state: one stake pool together with the user-stake positions that
belong to it, keyed by an abstract user identity (the PDA derivation
`[b"user_stake", pool, user]` makes positions per-(pool, user)). -/
structure SysState where
  pool : StakePool
  positions : List (Nat × UserStake)
deriving DecidableEq, Repr

/-- Looks up the position of a user (first matching key). -/
def lookupPos : List (Nat × UserStake) → Nat → Option UserStake
  | [], _ => none
  | (k, v) :: tl, uid => if k = uid then some v else lookupPos tl uid

/-- Writes a user's position: replaces the first matching entry, or appends a
new entry (account creation via `init_if_needed`). -/
def setPos : List (Nat × UserStake) → Nat → UserStake → List (Nat × UserStake)
  | [], uid, u => [(uid, u)]
  | (k, v) :: tl, uid, u => if k = uid then (k, u) :: tl else (k, v) :: setPos tl uid u

/-- A user's position, or a zero-initialized one when none exists yet. -/
def getPosD (s : SysState) (uid : Nat) : UserStake :=
  (lookupPos s.positions uid).getD defaultUserStake

/-- Pool state produced by the initialize handler
(`src/instructions/initialize.rs`, lines 68-103). -/
def initPool (reward_rate : Nat) (min_lock max_lock t0 : Int) : StakePool :=
  { total_staked := 0
    total_weighted_stake := 0
    reward_rate := reward_rate
    accumulated_reward_per_share := 0
    last_reward_time := t0
    min_lock_duration := min_lock
    max_lock_duration := max_lock
    paused := false }

/-- System-level stake operation: `init_if_needed` account resolution followed
by the stake handler. -/
def stakeOp (s : SysState) (uid amount : Nat) (lock_duration now : Int) :
    Except StakingError SysState := do
  let r ← stake_handler s.pool (getPosD s uid) amount lock_duration now
  .ok { pool := r.1, positions := setPos s.positions uid r.2 }

/-- System-level unstake operation. -/
def unstakeOp (s : SysState) (uid amount : Nat) (now : Int) : Except StakingError SysState := do
  let r ← unstake_handler s.pool (getPosD s uid) amount now
  .ok { pool := r.1, positions := setPos s.positions uid r.2 }

/-- System-level claim operation; `vault_balance` is the reward vault's token
balance at the time of the claim. -/
def claimOp (s : SysState) (uid : Nat) (now : Int) (vault_balance : Nat) :
    Except StakingError SysState := do
  let r ← claim_rewards_handler s.pool (getPosD s uid) now vault_balance
  .ok { pool := r.1, positions := setPos s.positions uid r.2 }

/-- Sum of a Nat-valued field over all positions of the system. -/
def sumBy (f : UserStake → Nat) (l : List (Nat × UserStake)) : Nat :=
  (l.map fun pu => f pu.2).sum

/-- States reachable from a freshly initialized pool by completed stake,
unstake, and claim operations.  Instruction arguments range over their Rust
types: amounts over u64, timestamps and durations over i64; the initialize
handler validates `0 ≤ min_lock ≤ max_lock`. -/
inductive Reachable : SysState → Prop where
  | init (reward_rate : Nat) (min_lock max_lock t0 : Int) :
      reward_rate < U64MOD → inI64 min_lock → inI64 max_lock → inI64 t0 →
      0 ≤ min_lock → min_lock ≤ max_lock →
      Reachable { pool := initPool reward_rate min_lock max_lock t0, positions := [] }
  | stake (s s' : SysState) (uid amount : Nat) (lock_duration now : Int) :
      Reachable s → amount < U64MOD → inI64 lock_duration → inI64 now →
      stakeOp s uid amount lock_duration now = .ok s' → Reachable s'
  | unstake (s s' : SysState) (uid amount : Nat) (now : Int) :
      Reachable s → amount < U64MOD → inI64 now →
      unstakeOp s uid amount now = .ok s' → Reachable s'
  | claim (s s' : SysState) (uid : Nat) (now : Int) (vault_balance : Nat) :
      Reachable s → inI64 now → vault_balance < U64MOD →
      claimOp s uid now vault_balance = .ok s' → Reachable s'

/-- States reachable using only stake and claim operations (no unstake). -/
inductive ReachableSC : SysState → Prop where
  | init (reward_rate : Nat) (min_lock max_lock t0 : Int) :
      reward_rate < U64MOD → inI64 min_lock → inI64 max_lock → inI64 t0 →
      0 ≤ min_lock → min_lock ≤ max_lock →
      ReachableSC { pool := initPool reward_rate min_lock max_lock t0, positions := [] }
  | stake (s s' : SysState) (uid amount : Nat) (lock_duration now : Int) :
      ReachableSC s → amount < U64MOD → inI64 lock_duration → inI64 now →
      stakeOp s uid amount lock_duration now = .ok s' → ReachableSC s'
  | claim (s s' : SysState) (uid : Nat) (now : Int) (vault_balance : Nat) :
      ReachableSC s → inI64 now → vault_balance < U64MOD →
      claimOp s uid now vault_balance = .ok s' → ReachableSC s'

/-- States reachable when every individual stake amount is below 2^63, so the
u128-to-u64 narrowing of the weighted amount cannot truncate. -/
inductive ReachableSmallStakes : SysState → Prop where
  | init (reward_rate : Nat) (min_lock max_lock t0 : Int) :
      reward_rate < U64MOD → inI64 min_lock → inI64 max_lock → inI64 t0 →
      0 ≤ min_lock → min_lock ≤ max_lock →
      ReachableSmallStakes { pool := initPool reward_rate min_lock max_lock t0, positions := [] }
  | stake (s s' : SysState) (uid amount : Nat) (lock_duration now : Int) :
      ReachableSmallStakes s → amount < 2 ^ 63 → inI64 lock_duration → inI64 now →
      stakeOp s uid amount lock_duration now = .ok s' → ReachableSmallStakes s'
  | unstake (s s' : SysState) (uid amount : Nat) (now : Int) :
      ReachableSmallStakes s → amount < U64MOD → inI64 now →
      unstakeOp s uid amount now = .ok s' → ReachableSmallStakes s'
  | claim (s s' : SysState) (uid : Nat) (now : Int) (vault_balance : Nat) :
      ReachableSmallStakes s → inI64 now → vault_balance < U64MOD →
      claimOp s uid now vault_balance = .ok s' → ReachableSmallStakes s'

/-- Pool-totals bookkeeping invariant of the spec:
`total_staked = Σ position.staked_amount` and
`total_weighted_stake = Σ position.weighted_stake`. -/
def totalsInvariant (s : SysState) : Prop :=
  s.pool.total_staked = sumBy UserStake.staked_amount s.positions ∧
  s.pool.total_weighted_stake = sumBy UserStake.weighted_stake s.positions

/-- Boolean form of the no-underflow reward-debt invariant: every position has
`reward_debt ≤ weighted_stake * accumulated_reward_per_share / 10^12`. -/
def debtInvariantB (s : SysState) : Bool :=
  s.positions.all fun pu =>
    decide (pu.2.reward_debt ≤
      pu.2.weighted_stake * s.pool.accumulated_reward_per_share / PRECISION)

/-- Boolean form of the weighted-stake domination invariant: every position has
`staked_amount ≤ weighted_stake`. -/
def weightedGeStakedB (s : SysState) : Bool :=
  s.positions.all fun pu => decide (pu.2.staked_amount ≤ pu.2.weighted_stake)

/-! Inversion and evaluation lemmas for the `Except` plumbing. -/

@[simp] theorem okOr_some (a : α) (e : StakingError) : okOr (some a) e = .ok a := rfl

@[simp] theorem okOr_none (e : StakingError) : okOr (none : Option α) e = .error e := rfl

@[simp] theorem ok_bind {ε α β : Type} (a : α) (f : α → Except ε β) :
    (Except.ok a >>= f) = f a := rfl

@[simp] theorem error_bind {ε α β : Type} (e : ε) (f : α → Except ε β) :
    (Except.error e >>= f : Except ε β) = .error e := rfl

/-- C2: update_rewards behaves exactly as specified: with zero total weighted
stake it only sets `last_reward_time := now`; with non-positive elapsed time it
changes nothing; otherwise it adds `elapsed * reward_rate * 10^12 /
total_weighted_stake` (widened arithmetic, floor division) to the accumulator
and sets `last_reward_time := now`; and any overflow in a checked step is the
`MathOverflow` error instead of a wrapped result. -/
theorem update_rewards_spec (p : StakePool) (now : Int) :
    update_rewards p now =
      if p.total_weighted_stake = 0 then
        .ok { p with last_reward_time := now }
      else if ¬ inI64 (now - p.last_reward_time) then
        .error .MathOverflow
      else if now - p.last_reward_time ≤ 0 then
        .ok p
      else if (now - p.last_reward_time).toNat * p.reward_rate * PRECISION < U128MOD ∧
          p.accumulated_reward_per_share +
            (now - p.last_reward_time).toNat * p.reward_rate * PRECISION /
              p.total_weighted_stake < U128MOD then
        .ok { p with
          accumulated_reward_per_share := p.accumulated_reward_per_share +
            (now - p.last_reward_time).toNat * p.reward_rate * PRECISION /
              p.total_weighted_stake
          last_reward_time := now }
      else
        .error .MathOverflow := by
  unfold update_rewards
  by_cases h0 : p.total_weighted_stake = 0
  · simp [h0]
  · simp only [h0, if_false, chSubI64]
    by_cases h1 : inI64 (now - p.last_reward_time)
    · simp only [h1, if_true, okOr_some, ok_bind, not_true, if_false]
      by_cases h2 : now - p.last_reward_time ≤ 0
      · simp [h2]
      · simp only [h2, if_false, chMul128, chDivU, chAdd128, ite_not]
        by_cases h3 : (now - p.last_reward_time).toNat * p.reward_rate < U128MOD
        · simp only [h3, if_true, okOr_some, ok_bind]
          by_cases h4 :
              (now - p.last_reward_time).toNat * p.reward_rate * PRECISION < U128MOD
          · simp only [h4, if_true, okOr_some, ok_bind, h0, if_false]
            by_cases h5 : p.accumulated_reward_per_share +
                (now - p.last_reward_time).toNat * p.reward_rate * PRECISION /
                  p.total_weighted_stake < U128MOD
            · simp [h4, h5]
            · simp [h4, h5]
          · have : ¬ ((now - p.last_reward_time).toNat * p.reward_rate * PRECISION < U128MOD ∧
                p.accumulated_reward_per_share +
                  (now - p.last_reward_time).toNat * p.reward_rate * PRECISION /
                    p.total_weighted_stake < U128MOD) := fun hh => h4 hh.1
            simp [h4, this]
        · have h4 : ¬ ((now - p.last_reward_time).toNat * p.reward_rate * PRECISION < U128MOD) := by
            intro hh
            exact h3 (lt_of_le_of_lt (Nat.le_mul_of_pos_right _ (by norm_num [PRECISION])) hh)
          have : ¬ ((now - p.last_reward_time).toNat * p.reward_rate * PRECISION < U128MOD ∧
              p.accumulated_reward_per_share +
                (now - p.last_reward_time).toNat * p.reward_rate * PRECISION /
                  p.total_weighted_stake < U128MOD) := fun hh => h4 hh.1
          simp [h3, this]
    · simp [h1]

/-- A completed accumulator update preserves the pool's configuration and
totals and never decreases `accumulated_reward_per_share`. -/
theorem update_rewards_ok_inv {p p1 : StakePool} {now : Int}
    (h : update_rewards p now = .ok p1) :
    p1.total_staked = p.total_staked ∧
    p1.total_weighted_stake = p.total_weighted_stake ∧
    p1.reward_rate = p.reward_rate ∧
    p1.min_lock_duration = p.min_lock_duration ∧
    p1.max_lock_duration = p.max_lock_duration ∧
    p1.paused = p.paused ∧
    p.accumulated_reward_per_share ≤ p1.accumulated_reward_per_share := by
  rw [update_rewards_spec] at h
  split_ifs at h <;> cases h <;> simp


/-- Advancing the accumulator twice with the same timestamp is idempotent. -/
theorem update_rewards_idem {p p1 : StakePool} {now : Int}
    (h : update_rewards p now = .ok p1) :
    update_rewards p1 now = .ok p1 := by
  rw [update_rewards_spec] at h
  rw [update_rewards_spec]
  split_ifs at h with h0 h1 h2 h3
  · cases h
    simp [h0]
  · cases h
    rw [if_neg h0, if_neg (not_not_intro h1), if_pos h2]
  · cases h
    simp [h0]
    unfold inI64
    omega

@[simp] theorem okOr_ite_bind {α β : Type} {c : Prop} [Decidable c] (v : α) (e : StakingError)
    (k : α → Except StakingError β) :
    (okOr (if c then some v else none) e >>= k) = if c then k v else .error e := by
  split_ifs <;> simp

@[simp] theorem okOr_ite_none_bind {α β : Type} {c : Prop} [Decidable c] (v : α)
    (e : StakingError) (k : α → Except StakingError β) :
    (okOr (if c then none else some v) e >>= k) = if c then .error e else k v := by
  split_ifs <;> simp

/-- What a completed lock-bookkeeping step guarantees: amounts and debt are
untouched; `stake_start_time` is reset exactly when `staked_amount = 0`; the
lock end becomes `now + lock_duration` on a first stake and
`max lock_end_time (now + lock_duration)` otherwise. -/
theorem stake_update_position_ok {us u1 : UserStake} {ld t : Int}
    (h : stake_update_position us ld t = .ok u1) :
    inI64 (t + ld) ∧
    u1.staked_amount = us.staked_amount ∧
    u1.weighted_stake = us.weighted_stake ∧
    u1.reward_debt = us.reward_debt ∧
    u1.total_claimed = us.total_claimed ∧
    u1.stake_start_time = (if us.staked_amount = 0 then t else us.stake_start_time) ∧
    u1.lock_end_time = (if us.staked_amount = 0 then t + ld
      else if us.lock_end_time < t + ld then t + ld else us.lock_end_time) := by
  unfold stake_update_position at h
  simp only [chAddI64, okOr_ite_bind, okOr_ite_none_bind] at h
  split_ifs at h with h0 h1 h2 h3
  all_goals cases h
  all_goals simp_all
  all_goals (split_ifs <;> omega)

/-- What a completed amount-bookkeeping step guarantees: the pool totals and
the position's amounts each grow by the staked and weighted amounts, the
reward debt grows by `weighted_amount * acc / 10^12`, and each u64 checked
addition stayed in range. -/
theorem stake_finish_ok {pool1 : StakePool} {us1 : UserStake} {a wa : Nat}
    {p2 : StakePool} {u2 : UserStake}
    (h : stake_finish pool1 us1 a wa = .ok (p2, u2)) :
    p2 = { pool1 with
      total_staked := pool1.total_staked + a
      total_weighted_stake := pool1.total_weighted_stake + wa } ∧
    pool1.total_staked + a < U64MOD ∧
    pool1.total_weighted_stake + wa < U64MOD ∧
    us1.staked_amount + a < U64MOD ∧
    us1.weighted_stake + wa < U64MOD ∧
    u2 = { us1 with
      staked_amount := us1.staked_amount + a
      weighted_stake := us1.weighted_stake + wa
      reward_debt := us1.reward_debt + wa * pool1.accumulated_reward_per_share / PRECISION } := by
  unfold stake_finish at h
  simp only [chAdd64, chAdd128, chMul128, chDivU, okOr_ite_bind, okOr_ite_none_bind,
    ok_bind] at h
  split_ifs at h <;> cases h <;> simp_all

/-- Decomposition of a completed stake: validations passed, then the
accumulator update, the lock bookkeeping, and the amount bookkeeping ran in
sequence, with the weighted amount `amount * multiplier / 10000` (u64-narrowed). -/
theorem stake_handler_ok {pool : StakePool} {us : UserStake} {a : Nat} {ld t : Int}
    {p2 : StakePool} {u2 : UserStake}
    (h : stake_handler pool us a ld t = .ok (p2, u2)) :
    ∃ pool1 us1,
      update_rewards pool t = .ok pool1 ∧
      stake_update_position us ld t = .ok us1 ∧
      stake_finish pool1 us1 a
        (a * calculate_weight_multiplier ld pool1.min_lock_duration pool1.max_lock_duration
          / 10000 % U64MOD) = .ok (p2, u2) ∧
      pool.paused = false ∧ a ≠ 0 ∧
      pool.min_lock_duration ≤ ld ∧ ld ≤ pool.max_lock_duration := by
  unfold stake_handler at h
  split_ifs at h with hp ha h1 h2
  rcases hu : update_rewards pool t with e | pool1
  · rw [hu] at h
    simp at h
  · rw [hu] at h
    simp only [ok_bind, chMul128, chDivU, okOr_ite_bind, okOr_ite_none_bind] at h
    split_ifs at h with hm hd
    rcases hup : stake_update_position us ld t with e | us1
    · rw [hup] at h
      simp at h
    · rw [hup] at h
      simp only [ok_bind] at h
      exact ⟨pool1, us1, rfl, rfl, h, by simpa using hp, ha, by omega, by omega⟩

/-- Decomposition of a completed unstake: validations passed, the accumulator
was updated, and the proportional floor-division removals were applied to the
position and pool with checked subtraction. -/
theorem unstake_handler_ok {pool : StakePool} {us : UserStake} {a : Nat} {t : Int}
    {p2 : StakePool} {u2 : UserStake}
    (h : unstake_handler pool us a t = .ok (p2, u2)) :
    ∃ pool1,
      update_rewards pool t = .ok pool1 ∧
      a ≠ 0 ∧ a ≤ us.staked_amount ∧ us.lock_end_time ≤ t ∧
      a * us.weighted_stake / us.staked_amount % U64MOD ≤ us.weighted_stake ∧
      a * us.reward_debt / us.staked_amount ≤ us.reward_debt ∧
      a ≤ pool1.total_staked ∧
      a * us.weighted_stake / us.staked_amount % U64MOD ≤ pool1.total_weighted_stake ∧
      p2 = { pool1 with
        total_staked := pool1.total_staked - a
        total_weighted_stake :=
          pool1.total_weighted_stake - a * us.weighted_stake / us.staked_amount % U64MOD } ∧
      u2 = { us with
        staked_amount := us.staked_amount - a
        weighted_stake := us.weighted_stake - a * us.weighted_stake / us.staked_amount % U64MOD
        reward_debt := us.reward_debt - a * us.reward_debt / us.staked_amount } := by
  unfold unstake_handler at h
  split_ifs at h with ha h1 h2
  rcases hu : update_rewards pool t with e | pool1
  · rw [hu] at h
    simp at h
  · rw [hu] at h
    simp only [ok_bind, chMul128, chDivU, chSubU, okOr_ite_bind, okOr_ite_none_bind] at h
    split_ifs at h with c1 c2 c3 c4 c5 c6 c7 c8
    cases h
    exact ⟨pool1, rfl, ha, by omega, by omega, c5, c6, c7, c8, rfl, rfl⟩

/-- Decomposition of a completed claim: the position had stake, the
accumulator was updated, a nonzero pending reward was computed, the
vault-capped payout was nonzero, the reward debt was reset to the full current
accrual, and only `reward_debt` and `total_claimed` changed. -/
theorem claim_rewards_handler_ok {pool : StakePool} {us : UserStake} {t : Int} {vb : Nat}
    {p2 : StakePool} {u2 : UserStake}
    (h : claim_rewards_handler pool us t vb = .ok (p2, u2)) :
    ∃ pool1 pending,
      update_rewards pool t = .ok pool1 ∧
      us.staked_amount ≠ 0 ∧
      calculate_pending_rewards us pool1.accumulated_reward_per_share = .ok pending ∧
      pending ≠ 0 ∧
      us.weighted_stake * pool1.accumulated_reward_per_share < U128MOD ∧
      min (pending * reward_multiplier_bps (calculate_tier us.staked_amount) / 10000 % U64MOD)
        vb ≠ 0 ∧
      p2 = pool1 ∧
      u2 = { us with
        reward_debt :=
          us.weighted_stake * pool1.accumulated_reward_per_share / PRECISION
        total_claimed := us.total_claimed +
          min (pending * reward_multiplier_bps (calculate_tier us.staked_amount) / 10000
            % U64MOD) vb } := by
  unfold claim_rewards_handler at h
  split_ifs at h with hs
  rcases hu : update_rewards pool t with e | pool1
  · rw [hu] at h
    simp at h
  · rw [hu] at h
    simp only [ok_bind] at h
    rcases hpend : calculate_pending_rewards us pool1.accumulated_reward_per_share
      with e | pending
    · rw [hpend] at h
      simp at h
    · rw [hpend] at h
      simp only [ok_bind, chMul128, chDivU, chAdd64, okOr_ite_bind, okOr_ite_none_bind] at h
      split_ifs at h with c1 c2 c3 c4 c5 c6 c7
      rw [Except.ok.injEq, Prod.mk.injEq] at h
      exact ⟨pool1, pending, rfl, hs, hpend, c1, c5, c4, h.1.symm, h.2.symm⟩

/-- Characterization of a completed pending-reward calculation: zero for a
zero-weight position, otherwise the clamped difference between the floored
accrual and the reward debt, saturated into u64 range. -/
theorem calculate_pending_rewards_ok {us : UserStake} {acc v : Nat}
    (h : calculate_pending_rewards us acc = .ok v) :
    (us.weighted_stake = 0 ∧ v = 0) ∨
    (us.weighted_stake ≠ 0 ∧ us.weighted_stake * acc < U128MOD ∧
      v = min (us.weighted_stake * acc / PRECISION - us.reward_debt) (U64MOD - 1)) := by
  unfold calculate_pending_rewards at h
  split_ifs at h with h0
  · cases h
    exact Or.inl ⟨h0, rfl⟩
  · simp only [chMul128, chDivU, okOr_ite_bind, okOr_ite_none_bind] at h
    split_ifs at h with c1 c2
    cases h
    exact Or.inr ⟨h0, c1, rfl⟩

/-- Forward evaluation of calculate_pending_rewards on a nonzero-weight
position whose widened product stays in u128 range. -/
theorem calculate_pending_rewards_eval {us : UserStake} {acc : Nat}
    (h0 : us.weighted_stake ≠ 0) (h1 : us.weighted_stake * acc < U128MOD) :
    calculate_pending_rewards us acc =
      .ok (min (us.weighted_stake * acc / PRECISION - us.reward_debt) (U64MOD - 1)) := by
  unfold calculate_pending_rewards
  simp only [chMul128, chDivU, okOr_ite_bind, okOr_ite_none_bind, okOr_some, ok_bind,
    if_neg h0, if_pos h1]
  rw [if_neg (by norm_num [PRECISION])]

/-- A completed system-level stake is the handler applied to the pool and the
(possibly freshly created) position, with the results written back. -/
theorem stakeOp_ok {s s' : SysState} {uid a : Nat} {ld t : Int}
    (h : stakeOp s uid a ld t = .ok s') :
    ∃ p2 u2,
      stake_handler s.pool (getPosD s uid) a ld t = .ok (p2, u2) ∧
      s' = { pool := p2, positions := setPos s.positions uid u2 } := by
  unfold stakeOp at h
  rcases hh : stake_handler s.pool (getPosD s uid) a ld t with e | r
  · rw [hh] at h
    simp at h
  · rw [hh] at h
    simp only [ok_bind] at h
    cases h
    exact ⟨r.1, r.2, rfl, rfl⟩

/-- A completed system-level unstake is the handler applied to the stored
position, with the results written back. -/
theorem unstakeOp_ok {s s' : SysState} {uid a : Nat} {t : Int}
    (h : unstakeOp s uid a t = .ok s') :
    ∃ p2 u2,
      unstake_handler s.pool (getPosD s uid) a t = .ok (p2, u2) ∧
      s' = { pool := p2, positions := setPos s.positions uid u2 } := by
  unfold unstakeOp at h
  rcases hh : unstake_handler s.pool (getPosD s uid) a t with e | r
  · rw [hh] at h
    simp at h
  · rw [hh] at h
    simp only [ok_bind] at h
    cases h
    exact ⟨r.1, r.2, rfl, rfl⟩

/-- A completed system-level claim is the handler applied to the stored
position, with the results written back. -/
theorem claimOp_ok {s s' : SysState} {uid : Nat} {t : Int} {vb : Nat}
    (h : claimOp s uid t vb = .ok s') :
    ∃ p2 u2,
      claim_rewards_handler s.pool (getPosD s uid) t vb = .ok (p2, u2) ∧
      s' = { pool := p2, positions := setPos s.positions uid u2 } := by
  unfold claimOp at h
  rcases hh : claim_rewards_handler s.pool (getPosD s uid) t vb with e | r
  · rw [hh] at h
    simp at h
  · rw [hh] at h
    simp only [ok_bind] at h
    cases h
    exact ⟨r.1, r.2, rfl, rfl⟩

/-- Looking up right after writing a position returns the written value. -/
theorem lookupPos_setPos_self (l : List (Nat × UserStake)) (uid : Nat) (u : UserStake) :
    lookupPos (setPos l uid u) uid = some u := by
  induction l with
  | nil => simp [setPos, lookupPos]
  | cons hd tl ih =>
      by_cases hk : hd.1 = uid
      · simp [setPos, lookupPos, hk]
      · simp [setPos, lookupPos, hk, ih]

/-- Every entry of the written position list is the new entry or an old one. -/
theorem mem_setPos {l : List (Nat × UserStake)} {uid : Nat} {u : UserStake}
    {pu : Nat × UserStake} (h : pu ∈ setPos l uid u) : pu = (uid, u) ∨ pu ∈ l := by
  induction l with
  | nil => simpa [setPos] using h
  | cons hd tl ih =>
      by_cases hk : hd.1 = uid
      · rw [setPos] at h
        rw [if_pos hk] at h
        rcases List.mem_cons.mp h with h1 | h1
        · left
          rw [h1, ← hk]
        · right
          exact List.mem_cons_of_mem _ h1
      · rw [setPos] at h
        rw [if_neg hk] at h
        rcases List.mem_cons.mp h with h1 | h1
        · right
          rw [h1]
          exact List.mem_cons_self _ _
        · rcases ih h1 with h2 | h2
          · exact Or.inl h2
          · exact Or.inr (List.mem_cons_of_mem _ h2)

/-- A successful lookup returns a stored entry. -/
theorem lookupPos_mem {l : List (Nat × UserStake)} {uid : Nat} {u : UserStake}
    (h : lookupPos l uid = some u) : (uid, u) ∈ l := by
  induction l with
  | nil => simp [lookupPos] at h
  | cons hd tl ih =>
      by_cases hk : hd.1 = uid
      · rw [lookupPos, if_pos hk] at h
        cases h
        subst hk
        exact List.mem_cons_self _ _
      · rw [lookupPos, if_neg hk] at h
        exact List.mem_cons_of_mem _ (ih h)

/-- Writing a position changes a field sum by the difference between the new
value and the previously stored (or default) value. -/
theorem sumBy_setPos (f : UserStake → Nat) (l : List (Nat × UserStake)) (uid : Nat)
    (u : UserStake) (hf : f defaultUserStake = 0) :
    sumBy f (setPos l uid u) + f ((lookupPos l uid).getD defaultUserStake) =
      sumBy f l + f u := by
  induction l with
  | nil => simp [setPos, lookupPos, sumBy, hf]
  | cons hd tl ih =>
      by_cases hk : hd.1 = uid
      · simp [setPos, lookupPos, sumBy, hk]
        omega
      · simp only [setPos, lookupPos, hk, if_neg hk, if_false, sumBy, List.map_cons,
          List.sum_cons] at *
        omega

/-- C1: for every sequence of completed stake, unstake, and claim operations
from a freshly initialized pool, the pool totals equal the sums of the
positions' staked and weighted amounts exactly, with no drift. -/
theorem pool_totals_exact (s : SysState) (h : Reachable s) : totalsInvariant s := by
  induction h with
  | init rate mn mx t0 h1 h2 h3 h4 h5 h6 =>
      simp [totalsInvariant, initPool, sumBy]
  | stake s s' uid a ld t hr ha hld ht hop ih =>
      obtain ⟨p2, u2, hh, rfl⟩ := stakeOp_ok hop
      obtain ⟨pool1, us1, hu, hup, hfin, -, -, -, -⟩ := stake_handler_ok hh
      obtain ⟨hP, -, -, -, -, hU⟩ := stake_finish_ok hfin
      obtain ⟨-, hs1, hw1, -, -, -, -⟩ := stake_update_position_ok hup
      obtain ⟨hts, htws, -, -, -, -, -⟩ := update_rewards_ok_inv hu
      obtain ⟨ih1, ih2⟩ := ih
      have hsum1 := sumBy_setPos UserStake.staked_amount s.positions uid u2 rfl
      have hsum2 := sumBy_setPos UserStake.weighted_stake s.positions uid u2 rfl
      rw [show (lookupPos s.positions uid).getD defaultUserStake = getPosD s uid from rfl]
        at hsum1 hsum2
      have e1 : p2.total_staked = pool1.total_staked + a := by rw [hP]
      have e2 : p2.total_weighted_stake = pool1.total_weighted_stake +
          a * calculate_weight_multiplier ld pool1.min_lock_duration pool1.max_lock_duration
            / 10000 % U64MOD := by rw [hP]
      have e3 : u2.staked_amount = us1.staked_amount + a := by rw [hU]
      have e4 : u2.weighted_stake = us1.weighted_stake +
          a * calculate_weight_multiplier ld pool1.min_lock_duration pool1.max_lock_duration
            / 10000 % U64MOD := by rw [hU]
      constructor
      · show p2.total_staked = sumBy UserStake.staked_amount (setPos s.positions uid u2)
        omega
      · show p2.total_weighted_stake =
          sumBy UserStake.weighted_stake (setPos s.positions uid u2)
        omega
  | unstake s s' uid a t hr ha ht hop ih =>
      obtain ⟨p2, u2, hh, rfl⟩ := unstakeOp_ok hop
      obtain ⟨pool1, hu, -, hle, -, hwr, -, hats, hwtws, hP, hU⟩ := unstake_handler_ok hh
      obtain ⟨hts, htws, -, -, -, -, -⟩ := update_rewards_ok_inv hu
      obtain ⟨ih1, ih2⟩ := ih
      have hsum1 := sumBy_setPos UserStake.staked_amount s.positions uid u2 rfl
      have hsum2 := sumBy_setPos UserStake.weighted_stake s.positions uid u2 rfl
      rw [show (lookupPos s.positions uid).getD defaultUserStake = getPosD s uid from rfl]
        at hsum1 hsum2
      have e1 : p2.total_staked = pool1.total_staked - a := by rw [hP]
      have e2 : p2.total_weighted_stake = pool1.total_weighted_stake -
          a * (getPosD s uid).weighted_stake / (getPosD s uid).staked_amount % U64MOD := by
        rw [hP]
      have e3 : u2.staked_amount = (getPosD s uid).staked_amount - a := by rw [hU]
      have e4 : u2.weighted_stake = (getPosD s uid).weighted_stake -
          a * (getPosD s uid).weighted_stake / (getPosD s uid).staked_amount % U64MOD := by
        rw [hU]
      constructor
      · show p2.total_staked = sumBy UserStake.staked_amount (setPos s.positions uid u2)
        omega
      · show p2.total_weighted_stake =
          sumBy UserStake.weighted_stake (setPos s.positions uid u2)
        omega
  | claim s s' uid t vb hr ht hvb hop ih =>
      obtain ⟨p2, u2, hh, rfl⟩ := claimOp_ok hop
      obtain ⟨pool1, pending, hu, -, -, -, -, -, hP, hU⟩ := claim_rewards_handler_ok hh
      obtain ⟨hts, htws, -, -, -, -, -⟩ := update_rewards_ok_inv hu
      obtain ⟨ih1, ih2⟩ := ih
      have hsum1 := sumBy_setPos UserStake.staked_amount s.positions uid u2 rfl
      have hsum2 := sumBy_setPos UserStake.weighted_stake s.positions uid u2 rfl
      rw [show (lookupPos s.positions uid).getD defaultUserStake = getPosD s uid from rfl]
        at hsum1 hsum2
      have e1 : p2.total_staked = pool1.total_staked := by rw [hP]
      have e2 : p2.total_weighted_stake = pool1.total_weighted_stake := by rw [hP]
      have e3 : u2.staked_amount = (getPosD s uid).staked_amount := by rw [hU]
      have e4 : u2.weighted_stake = (getPosD s uid).weighted_stake := by rw [hU]
      constructor
      · show p2.total_staked = sumBy UserStake.staked_amount (setPos s.positions uid u2)
        omega
      · show p2.total_weighted_stake =
          sumBy UserStake.weighted_stake (setPos s.positions uid u2)
        omega

/-- Freshly initialized example pool: reward_rate 1 per second, zero minimum
and maximum lock duration, opened at time 0. -/
def exS0 : SysState := { pool := initPool 1 0 0 0, positions := [] }

/-- exS0 after user 0 stakes 2 units at time 0 with lock duration 0. -/
def exS1 : SysState :=
  { pool :=
      { total_staked := 2
        total_weighted_stake := 2
        reward_rate := 1
        accumulated_reward_per_share := 0
        last_reward_time := 0
        min_lock_duration := 0
        max_lock_duration := 0
        paused := false }
    positions := [(0,
      { staked_amount := 2
        weighted_stake := 2
        lock_end_time := 0
        lock_duration := 0
        reward_debt := 0
        total_claimed := 0
        stake_start_time := 0 })] }

/-- exS1 after user 0 claims at time 1 against a vault balance of 1. -/
def exS2 : SysState :=
  { pool :=
      { total_staked := 2
        total_weighted_stake := 2
        reward_rate := 1
        accumulated_reward_per_share := 500000000000
        last_reward_time := 1
        min_lock_duration := 0
        max_lock_duration := 0
        paused := false }
    positions := [(0,
      { staked_amount := 2
        weighted_stake := 2
        lock_end_time := 0
        lock_duration := 0
        reward_debt := 1
        total_claimed := 1
        stake_start_time := 0 })] }

/-- The example stake from the fresh pool completes. -/
theorem exS0_stake : stakeOp exS0 0 2 0 0 = .ok exS1 := rfl

/-- The example claim completes. -/
theorem exS1_claim : claimOp exS1 0 1 1 = .ok exS2 := rfl

/-- The example states are reachable. -/
theorem exS1_reachable : Reachable exS1 :=
  Reachable.stake exS0 exS1 0 2 0 0
    (Reachable.init 1 0 0 0 (by norm_num [U64MOD]) (by unfold inI64; omega)
      (by unfold inI64; omega) (by unfold inI64; omega) le_rfl le_rfl)
    (by norm_num [U64MOD]) (by unfold inI64; omega) (by unfold inI64; omega) exS0_stake

/-- C1 witness: the totals invariant, instantiated at a concrete reachable
state with one staked position. -/
theorem pool_totals_exact_witness : totalsInvariant exS1 :=
  pool_totals_exact exS1 exS1_reachable

/-- C3: every successful claim resets the position's reward_debt to the full
floored accrual `weighted_stake * accumulated_reward_per_share / 10^12` at the
post-advance accumulator, for every vault balance — so a vault-capped payout
smaller than the tier-multiplied reward forfeits the shortfall instead of
carrying it forward. -/
theorem claim_resets_debt_to_full_accrual (s s' : SysState) (uid : Nat) (t : Int) (vb : Nat)
    (h : claimOp s uid t vb = .ok s') :
    (getPosD s' uid).reward_debt =
      (getPosD s uid).weighted_stake * s'.pool.accumulated_reward_per_share / PRECISION ∧
    (getPosD s' uid).weighted_stake = (getPosD s uid).weighted_stake := by
  obtain ⟨p2, u2, hh, rfl⟩ := claimOp_ok h
  obtain ⟨pool1, pending, hu, -, -, -, -, -, hP, hU⟩ := claim_rewards_handler_ok hh
  have hget : getPosD { pool := p2, positions := setPos s.positions uid u2 } uid = u2 := by
    unfold getPosD
    rw [lookupPos_setPos_self]
    rfl
  rw [hget]
  constructor
  · rw [hU]
    show (getPosD s uid).weighted_stake * pool1.accumulated_reward_per_share / PRECISION =
      (getPosD s uid).weighted_stake * p2.accumulated_reward_per_share / PRECISION
    rw [hP]
  · rw [hU]

/-- exS1 after user 0 stakes one more unit at time 3 with lock duration 0. -/
def exS5 : SysState :=
  { pool :=
      { total_staked := 3
        total_weighted_stake := 3
        reward_rate := 1
        accumulated_reward_per_share := 1500000000000
        last_reward_time := 3
        min_lock_duration := 0
        max_lock_duration := 0
        paused := false }
    positions := [(0,
      { staked_amount := 3
        weighted_stake := 3
        lock_end_time := 3
        lock_duration := 0
        reward_debt := 1
        total_claimed := 0
        stake_start_time := 0 })] }

/-- The additional example stake completes. -/
theorem exS1_stake2 : stakeOp exS1 0 1 0 3 = .ok exS5 := rfl

/-- C3 witness: the concrete claim resets the reward debt to the full accrual
at the post-advance accumulator. -/
theorem claim_resets_debt_witness :
    (getPosD exS2 0).reward_debt =
      (getPosD exS1 0).weighted_stake * exS2.pool.accumulated_reward_per_share / PRECISION ∧
    (getPosD exS2 0).weighted_stake = (getPosD exS1 0).weighted_stake :=
  claim_resets_debt_to_full_accrual exS1 exS2 0 1 1 exS1_claim

/-- C5: a completed stake on a position that currently has stake never
shortens the lock: the new lock end is the maximum of the previous lock end
and `now + lock_duration`. -/
theorem stake_extends_lock (s s' : SysState) (uid a : Nat) (ld t : Int)
    (h : stakeOp s uid a ld t = .ok s')
    (hprev : (getPosD s uid).staked_amount ≠ 0) :
    (getPosD s' uid).lock_end_time = max (getPosD s uid).lock_end_time (t + ld) := by
  obtain ⟨p2, u2, hh, rfl⟩ := stakeOp_ok h
  obtain ⟨pool1, us1, hu, hup, hfin, -, -, -, -⟩ := stake_handler_ok hh
  obtain ⟨-, -, -, -, -, hU⟩ := stake_finish_ok hfin
  obtain ⟨-, -, -, -, -, -, hle⟩ := stake_update_position_ok hup
  have hget : getPosD { pool := p2, positions := setPos s.positions uid u2 } uid = u2 := by
    unfold getPosD
    rw [lookupPos_setPos_self]
    rfl
  rw [hget]
  have e : u2.lock_end_time = us1.lock_end_time := by rw [hU]
  rw [e, hle, if_neg hprev]
  rcases le_or_lt (t + ld) ((getPosD s uid).lock_end_time) with hc | hc
  · rw [if_neg (by omega), max_eq_left hc]
  · rw [if_pos hc, max_eq_right (le_of_lt hc)]

/-- C5 witness: the concrete follow-up stake extends the lock end from 0 to
`max 0 (3 + 0) = 3`. -/
theorem stake_extends_lock_witness :
    (getPosD exS5 0).lock_end_time = max (getPosD exS1 0).lock_end_time (3 + 0) :=
  stake_extends_lock exS1 exS5 0 1 0 3 exS1_stake2 (by decide)

/-- C9: a completed full unstake (amount = staked_amount) of a u64-ranged
position removes exactly the whole weighted stake and the whole reward debt —
the proportional floor divisions are exact — leaving all three position
amounts at zero, and the pool totals drop by exactly the position's amounts. -/
theorem full_unstake_zeroes (s s' : SysState) (uid : Nat) (t : Int)
    (hw : (getPosD s uid).weighted_stake < U64MOD)
    (h : unstakeOp s uid (getPosD s uid).staked_amount t = .ok s') :
    (getPosD s' uid).staked_amount = 0 ∧
    (getPosD s' uid).weighted_stake = 0 ∧
    (getPosD s' uid).reward_debt = 0 ∧
    s'.pool.total_staked + (getPosD s uid).staked_amount = s.pool.total_staked ∧
    s'.pool.total_weighted_stake + (getPosD s uid).weighted_stake =
      s.pool.total_weighted_stake := by
  obtain ⟨p2, u2, hh, rfl⟩ := unstakeOp_ok h
  obtain ⟨pool1, hu, ha, -, -, -, -, hats, hwtws, hP, hU⟩ := unstake_handler_ok hh
  obtain ⟨hts, htws, -, -, -, -, -⟩ := update_rewards_ok_inv hu
  have hget : getPosD { pool := p2, positions := setPos s.positions uid u2 } uid = u2 := by
    unfold getPosD
    rw [lookupPos_setPos_self]
    rfl
  have hwr : (getPosD s uid).staked_amount * (getPosD s uid).weighted_stake /
      (getPosD s uid).staked_amount % U64MOD = (getPosD s uid).weighted_stake := by
    rw [Nat.mul_div_cancel_left _ (Nat.pos_of_ne_zero ha), Nat.mod_eq_of_lt hw]
  have hdr : (getPosD s uid).staked_amount * (getPosD s uid).reward_debt /
      (getPosD s uid).staked_amount = (getPosD s uid).reward_debt :=
    Nat.mul_div_cancel_left _ (Nat.pos_of_ne_zero ha)
  rw [hwr] at hwtws hP hU
  rw [hdr] at hU
  have e1 : u2.staked_amount = 0 := by rw [hU]; exact Nat.sub_self _
  have e2 : u2.weighted_stake = 0 := by rw [hU]; exact Nat.sub_self _
  have e3 : u2.reward_debt = 0 := by rw [hU]; exact Nat.sub_self _
  have e4 : p2.total_staked = pool1.total_staked - (getPosD s uid).staked_amount := by rw [hP]
  have e5 : p2.total_weighted_stake =
      pool1.total_weighted_stake - (getPosD s uid).weighted_stake := by rw [hP]
  rw [hget]
  refine ⟨e1, e2, e3, ?_, ?_⟩
  · show p2.total_staked + (getPosD s uid).staked_amount = s.pool.total_staked
    omega
  · show p2.total_weighted_stake + (getPosD s uid).weighted_stake =
      s.pool.total_weighted_stake
    omega

/-- exS2 after user 0 unstakes the full staked amount at time 1. -/
def exS6 : SysState :=
  { pool :=
      { total_staked := 0
        total_weighted_stake := 0
        reward_rate := 1
        accumulated_reward_per_share := 500000000000
        last_reward_time := 1
        min_lock_duration := 0
        max_lock_duration := 0
        paused := false }
    positions := [(0,
      { staked_amount := 0
        weighted_stake := 0
        lock_end_time := 0
        lock_duration := 0
        reward_debt := 0
        total_claimed := 1
        stake_start_time := 0 })] }

/-- The concrete full unstake completes. -/
theorem exS2_full_unstake : unstakeOp exS2 0 (getPosD exS2 0).staked_amount 1 = .ok exS6 := rfl

/-- C9 witness: the concrete full unstake leaves the position at zero and
returns the pool totals to zero. -/
theorem full_unstake_zeroes_witness :
    (getPosD exS6 0).staked_amount = 0 ∧
    (getPosD exS6 0).weighted_stake = 0 ∧
    (getPosD exS6 0).reward_debt = 0 ∧
    exS6.pool.total_staked + (getPosD exS2 0).staked_amount = exS2.pool.total_staked ∧
    exS6.pool.total_weighted_stake + (getPosD exS2 0).weighted_stake =
      exS2.pool.total_weighted_stake :=
  full_unstake_zeroes exS2 exS6 0 1 (by decide) exS2_full_unstake

/-- C8: a second claim attempted immediately after a successful one, at the
same timestamp with no intervening operation, fails with NoPendingRewards
(and, the operation being all-or-nothing, leaves pool and position
unchanged). -/
theorem double_claim_rejected (s s1 : SysState) (uid : Nat) (t : Int) (vb vb2 : Nat)
    (h : claimOp s uid t vb = .ok s1) :
    claimOp s1 uid t vb2 = .error .NoPendingRewards := by
  obtain ⟨p2, u2, hh, rfl⟩ := claimOp_ok h
  obtain ⟨pool1, pending, hu, hs0, hpend, hpne, hmul, hane, hP, hU⟩ :=
    claim_rewards_handler_ok hh
  have hw : (getPosD s uid).weighted_stake ≠ 0 := by
    rcases calculate_pending_rewards_ok hpend with ⟨hz, hv⟩ | ⟨hnz, -, -⟩
    · exact absurd hv hpne
    · exact hnz
  have hget : getPosD { pool := p2, positions := setPos s.positions uid u2 } uid = u2 := by
    unfold getPosD
    rw [lookupPos_setPos_self]
    rfl
  have hidem : update_rewards p2 t = .ok p2 := by
    rw [hP]
    exact update_rewards_idem hu
  have hwu : u2.weighted_stake = (getPosD s uid).weighted_stake := by rw [hU]
  have hbd : u2.weighted_stake * p2.accumulated_reward_per_share < U128MOD := by
    rw [hwu, hP]
    exact hmul
  have hdebt : u2.reward_debt =
      u2.weighted_stake * p2.accumulated_reward_per_share / PRECISION := by
    rw [hU, hP]
  have hcl : claim_rewards_handler p2 u2 t vb2 = .error .NoPendingRewards := by
    unfold claim_rewards_handler
    rw [if_neg (by rw [hU]; exact hs0)]
    rw [hidem]
    simp only [ok_bind]
    rw [calculate_pending_rewards_eval (by rw [hwu]; exact hw) hbd]
    simp only [ok_bind]
    rw [← hdebt, Nat.sub_self]
    simp
  simp only [claimOp, hget]
  rw [hcl]
  rfl

/-- C8 witness: the concrete repeat claim at the same timestamp is rejected
with NoPendingRewards. -/
theorem double_claim_rejected_witness :
    claimOp exS2 0 1 7 = .error .NoPendingRewards :=
  double_claim_rejected exS1 exS2 0 1 1 7 exS1_claim

/-- Fresh zero-reward-rate pool with zero lock bounds, opened at time 0. -/
def exT0 : SysState := { pool := initPool 0 0 0 0, positions := [] }

/-- exT0 after user 0 stakes 1 unit at time 0. -/
def exT1 : SysState :=
  { pool :=
      { total_staked := 1
        total_weighted_stake := 1
        reward_rate := 0
        accumulated_reward_per_share := 0
        last_reward_time := 0
        min_lock_duration := 0
        max_lock_duration := 0
        paused := false }
    positions := [(0,
      { staked_amount := 1
        weighted_stake := 1
        lock_end_time := 0
        lock_duration := 0
        reward_debt := 0
        total_claimed := 0
        stake_start_time := 0 })] }

/-- exT1 after user 0 unstakes the full 1 unit at time 1: the position decays
to zero stake but keeps stake_start_time = 0. -/
def exT2 : SysState :=
  { pool :=
      { total_staked := 0
        total_weighted_stake := 0
        reward_rate := 0
        accumulated_reward_per_share := 0
        last_reward_time := 1
        min_lock_duration := 0
        max_lock_duration := 0
        paused := false }
    positions := [(0,
      { staked_amount := 0
        weighted_stake := 0
        lock_end_time := 0
        lock_duration := 0
        reward_debt := 0
        total_claimed := 0
        stake_start_time := 0 })] }

/-- exT2 after user 0 stakes again at time 5: the handler treats the decayed
position as a first stake and rewrites stake_start_time to 5. -/
def exT3 : SysState :=
  { pool :=
      { total_staked := 1
        total_weighted_stake := 1
        reward_rate := 0
        accumulated_reward_per_share := 0
        last_reward_time := 5
        min_lock_duration := 0
        max_lock_duration := 0
        paused := false }
    positions := [(0,
      { staked_amount := 1
        weighted_stake := 1
        lock_end_time := 5
        lock_duration := 0
        reward_debt := 0
        total_claimed := 0
        stake_start_time := 5 })] }

/-- The decayed position state is reachable. -/
theorem exT2_reachable : Reachable exT2 :=
  Reachable.unstake exT1 exT2 0 1 1
    (Reachable.stake exT0 exT1 0 1 0 0
      (Reachable.init 0 0 0 0 (by norm_num [U64MOD]) (by unfold inI64; omega)
        (by unfold inI64; omega) (by unfold inI64; omega) le_rfl le_rfl)
      (by norm_num [U64MOD]) (by unfold inI64; omega) (by unfold inI64; omega) rfl)
    (by norm_num [U64MOD]) (by unfold inI64; omega) rfl

/-- C6 counterexample: a stake performed after the position has decayed to
zero staked_amount via full unstake changes stake_start_time (from 0 to 5),
because `is_first_stake` is `staked_amount == 0`, not account freshness. -/
theorem stake_start_time_reset_cex :
    Reachable exT2 ∧
    (getPosD exT2 0).stake_start_time = 0 ∧
    stakeOp exT2 0 1 0 5 = .ok exT3 ∧
    (getPosD exT3 0).stake_start_time = 5 :=
  ⟨exT2_reachable, rfl, rfl, rfl⟩

/-- C6 amended: stake_start_time is unchanged by every completed unstake and
claim, and by every completed stake performed while staked_amount is nonzero;
only a stake on a zero-stake position (first ever, or after a full unstake)
rewrites it. -/
theorem stake_start_time_frame (s s' : SysState) (uid a : Nat) (ld t : Int) (vb : Nat) :
    (stakeOp s uid a ld t = .ok s' → (getPosD s uid).staked_amount ≠ 0 →
      (getPosD s' uid).stake_start_time = (getPosD s uid).stake_start_time) ∧
    (unstakeOp s uid a t = .ok s' →
      (getPosD s' uid).stake_start_time = (getPosD s uid).stake_start_time) ∧
    (claimOp s uid t vb = .ok s' →
      (getPosD s' uid).stake_start_time = (getPosD s uid).stake_start_time) := by
  refine ⟨fun h hne => ?_, fun h => ?_, fun h => ?_⟩
  · obtain ⟨p2, u2, hh, rfl⟩ := stakeOp_ok h
    obtain ⟨pool1, us1, hu, hup, hfin, -, -, -, -⟩ := stake_handler_ok hh
    obtain ⟨-, -, -, -, -, hU⟩ := stake_finish_ok hfin
    obtain ⟨-, -, -, -, -, hst, -⟩ := stake_update_position_ok hup
    have hget : getPosD { pool := p2, positions := setPos s.positions uid u2 } uid = u2 := by
      unfold getPosD
      rw [lookupPos_setPos_self]
      rfl
    rw [hget]
    have e : u2.stake_start_time = us1.stake_start_time := by rw [hU]
    rw [e, hst, if_neg hne]
  · obtain ⟨p2, u2, hh, rfl⟩ := unstakeOp_ok h
    obtain ⟨pool1, hu, -, -, -, -, -, -, -, hP, hU⟩ := unstake_handler_ok hh
    have hget : getPosD { pool := p2, positions := setPos s.positions uid u2 } uid = u2 := by
      unfold getPosD
      rw [lookupPos_setPos_self]
      rfl
    rw [hget, hU]
  · obtain ⟨p2, u2, hh, rfl⟩ := claimOp_ok h
    obtain ⟨pool1, pending, hu, -, -, -, -, -, hP, hU⟩ := claim_rewards_handler_ok hh
    have hget : getPosD { pool := p2, positions := setPos s.positions uid u2 } uid = u2 := by
      unfold getPosD
      rw [lookupPos_setPos_self]
      rfl
    rw [hget, hU]

/-- C6 witness: concrete stake-on-nonzero, unstake, and claim operations all
preserve stake_start_time. -/
theorem stake_start_time_frame_witness :
    (getPosD exS5 0).stake_start_time = (getPosD exS1 0).stake_start_time ∧
    (getPosD exS6 0).stake_start_time = (getPosD exS2 0).stake_start_time ∧
    (getPosD exS2 0).stake_start_time = (getPosD exS1 0).stake_start_time :=
  ⟨(stake_start_time_frame exS1 exS5 0 1 0 3 0).1 exS1_stake2 (by decide),
   (stake_start_time_frame exS2 exS6 0 (getPosD exS2 0).staked_amount 0 1 0).2.1
     exS2_full_unstake,
   (stake_start_time_frame exS1 exS2 0 0 0 1 1).2.2 exS1_claim⟩
set_option maxRecDepth 16000

/-- Values already in i64 range are unchanged by wrapping. -/
theorem wrapI64_eq_self {x : Int} (h1 : -(2 ^ 63) ≤ x) (h2 : x < 2 ^ 63) : wrapI64 x = x := by
  unfold wrapI64
  omega

/-- Values in [2^63, 2^64) wrap to their value minus 2^64. -/
theorem wrapI64_high {x : Int} (h1 : 2 ^ 63 ≤ x) (h2 : x < 2 ^ 64) :
    wrapI64 x = x - 2 ^ 64 := by
  unfold wrapI64
  omega

/-- Casting a non-negative in-range value to u128 keeps the value. -/
theorem i64ToU128_of_nonneg {x : Int} (h1 : 0 ≤ x) (h2 : x < 2 ^ 128) :
    i64ToU128 x = x.toNat := by
  unfold i64ToU128
  omega

/-- Casting a negative i64 value to u128 sign-extends: it adds 2^128. -/
theorem i64ToU128_of_neg {x : Int} (h1 : -(2 ^ 128) ≤ x) (h2 : x < 0) :
    i64ToU128 x = (x + 2 ^ 128).toNat := by
  unfold i64ToU128
  omega

/-- The clamped duration lies between the bounds. -/
theorem clamp_bounds (d mn mx : Int) (h : mn ≤ mx) :
    mn ≤ min (max d mn) mx ∧ min (max d mn) mx ≤ mx := by
  constructor
  · exact le_min (le_max_right d mn) h
  · exact min_le_right _ _

/-- Closed form of the weight multiplier when the range does not overflow
i64: linear interpolation `10000 + progress * 10000 / range` on the clamped
duration. -/
theorem calculate_weight_multiplier_eq (d mn mx : Int) (hlt : mn < mx)
    (hR : mx - mn < 2 ^ 63) :
    calculate_weight_multiplier d mn mx =
      10000 + (min (max d mn) mx - mn).toNat * 10000 / (mx - mn).toNat := by
  obtain ⟨hD1, hD2⟩ := clamp_bounds d mn mx (le_of_lt hlt)
  have hrange : wrapI64 (mx - mn) = mx - mn := wrapI64_eq_self (by omega) hR
  have hprog : wrapI64 (min (max d mn) mx - mn) = min (max d mn) mx - mn :=
    wrapI64_eq_self (by omega) (by omega)
  have hRn : (mx - mn).toNat ≠ 0 := by omega
  have hPle : (min (max d mn) mx - mn).toNat ≤ (mx - mn).toNat := by omega
  have hPlt : (min (max d mn) mx - mn).toNat < 2 ^ 63 := by omega
  unfold calculate_weight_multiplier
  simp only [hrange, hprog]
  rw [if_neg (by omega)]
  rw [i64ToU128_of_nonneg (by omega) (by omega), i64ToU128_of_nonneg (by omega) (by omega)]
  have hnum : (min (max d mn) mx - mn).toNat * 10000 % U128MOD =
      (min (max d mn) mx - mn).toNat * 10000 := by
    apply Nat.mod_eq_of_lt
    unfold U128MOD
    omega
  rw [hnum]
  have hq : (min (max d mn) mx - mn).toNat * 10000 / (mx - mn).toNat ≤ 10000 := by
    calc (min (max d mn) mx - mn).toNat * 10000 / (mx - mn).toNat
        ≤ (mx - mn).toNat * 10000 / (mx - mn).toNat :=
          Nat.div_le_div_right (Nat.mul_le_mul_right _ hPle)
    _ = 10000 := Nat.mul_div_cancel_left _ (Nat.pos_of_ne_zero hRn)
  rw [Nat.mod_eq_of_lt (show (min (max d mn) mx - mn).toNat * 10000 / (mx - mn).toNat
    < U64MOD by unfold U64MOD; omega)]
  rw [Nat.mod_eq_of_lt (show 10000 * ((min (max d mn) mx - mn).toNat * 10000 /
    (mx - mn).toNat) < U64MOD by unfold U64MOD; omega)]
  rw [Nat.mul_div_cancel_left _ (show 0 < 10000 by norm_num)]
  rw [Nat.mod_eq_of_lt (show 10000 + (min (max d mn) mx - mn).toNat * 10000 /
    (mx - mn).toNat < U64MOD by unfold U64MOD; omega)]

/-- Degenerate behaviour when `max_duration - min_duration` overflows i64:
the wrapped range is negative, its u128 sign extension is enormous, the
progress quotient is always 0, and the multiplier is constantly 10000. -/
theorem calculate_weight_multiplier_wrap (d mn mx : Int)
    (hmn : inI64 mn) (hmx : inI64 mx) (hR : 2 ^ 63 ≤ mx - mn) :
    calculate_weight_multiplier d mn mx = 10000 := by
  obtain ⟨hmn1, hmn2⟩ := hmn
  obtain ⟨hmx1, hmx2⟩ := hmx
  have hRu : mx - mn < 2 ^ 64 := by omega
  obtain ⟨hD1, hD2⟩ := clamp_bounds d mn mx (by omega)
  have hrange : wrapI64 (mx - mn) = mx - mn - 2 ^ 64 := wrapI64_high hR hRu
  unfold calculate_weight_multiplier
  simp only [hrange]
  rw [if_neg (show ¬(mx - mn - 2 ^ 64 = 0) by omega)]
  rw [show i64ToU128 (mx - mn - 2 ^ 64) = (mx - mn - 2 ^ 64 + 2 ^ 128).toNat from
    i64ToU128_of_neg (by omega) (by omega)]
  by_cases hp : min (max d mn) mx - mn < 2 ^ 63
  · rw [wrapI64_eq_self (show -(2 ^ 63) ≤ min (max d mn) mx - mn by omega) hp]
    rw [i64ToU128_of_nonneg (show (0 : Int) ≤ min (max d mn) mx - mn by omega)
      (show min (max d mn) mx - mn < 2 ^ 128 by omega)]
    rw [show (min (max d mn) mx - mn).toNat * 10000 % U128MOD =
      (min (max d mn) mx - mn).toNat * 10000 from Nat.mod_eq_of_lt (by unfold U128MOD; omega)]
    have hdiv : (min (max d mn) mx - mn).toNat * 10000 /
        (mx - mn - 2 ^ 64 + 2 ^ 128).toNat = 0 := by
      apply Nat.div_eq_of_lt
      omega
    rw [hdiv]
    norm_num [U64MOD]
  · push_neg at hp
    have hplt : min (max d mn) mx - mn < 2 ^ 64 := by omega
    rw [wrapI64_high hp hplt]
    rw [show i64ToU128 (min (max d mn) mx - mn - 2 ^ 64) =
        (min (max d mn) mx - mn - 2 ^ 64 + 2 ^ 128).toNat from
      i64ToU128_of_neg (by omega) (by omega)]
    have hsplit : (min (max d mn) mx - mn - 2 ^ 64 + 2 ^ 128).toNat * 10000 =
        U128MOD * 9999 +
          ((min (max d mn) mx - mn - 2 ^ 64 + 2 ^ 128).toNat * 10000 - 9999 * U128MOD) := by
      unfold U128MOD
      omega
    have hrlt : (min (max d mn) mx - mn - 2 ^ 64 + 2 ^ 128).toNat * 10000 - 9999 * U128MOD <
        U128MOD := by
      unfold U128MOD
      omega
    have hdiv : ((min (max d mn) mx - mn - 2 ^ 64 + 2 ^ 128).toNat * 10000 -
        9999 * U128MOD) / (mx - mn - 2 ^ 64 + 2 ^ 128).toNat = 0 := by
      apply Nat.div_eq_of_lt
      unfold U128MOD
      omega
    rw [hsplit, Nat.mul_add_mod, Nat.mod_eq_of_lt hrlt, hdiv]
    norm_num [U64MOD]

/-- With equal bounds the division-by-zero guard returns the minimum
multiplier. -/
theorem wm_of_eq (d mn : Int) : calculate_weight_multiplier d mn mn = 10000 := by
  unfold calculate_weight_multiplier
  rw [sub_self]
  rw [show wrapI64 0 = 0 from by unfold wrapI64; decide]
  simp

/-- C7 counterexample: with min = i64::MIN and max = i64::MAX (min ≤ max),
the multiplier at d = max is 10000, not the claimed 20000, because the
unchecked subtraction `max_duration - min_duration` wraps. -/
theorem weight_multiplier_at_max_cex :
    (-(2 ^ 63) : Int) ≤ 2 ^ 63 - 1 ∧
    calculate_weight_multiplier (2 ^ 63 - 1) (-(2 ^ 63)) (2 ^ 63 - 1) = 10000 := by
  constructor
  · norm_num
  · decide

/-- C7 amended: for all i64 `d` and i64 bounds `min ≤ max`, the multiplier is
in [10000, 20000], equals 10000 at `d = min` and whenever `max = min`, and is
monotonically non-decreasing in `d`; it equals 20000 at `d = max` provided
additionally `min < max` and `max - min < 2^63` (no i64 overflow in the range
computation — true of every validly configured pool, whose `min ≥ 0`); and
the midpoint of the default bounds yields a value in [14900, 15100]. -/
theorem calculate_weight_multiplier_props (d mn mx : Int)
    (hmn : inI64 mn) (hmx : inI64 mx) (h : mn ≤ mx) :
    (10000 ≤ calculate_weight_multiplier d mn mx ∧
      calculate_weight_multiplier d mn mx ≤ 20000) ∧
    calculate_weight_multiplier mn mn mx = 10000 ∧
    (mx = mn → calculate_weight_multiplier d mn mx = 10000) ∧
    (mn < mx → mx - mn < 2 ^ 63 → calculate_weight_multiplier mx mn mx = 20000) ∧
    (∀ d1 d2 : Int, d1 ≤ d2 →
      calculate_weight_multiplier d1 mn mx ≤ calculate_weight_multiplier d2 mn mx) ∧
    14900 ≤ calculate_weight_multiplier ((604800 + 31536000) / 2) 604800 31536000 ∧
    calculate_weight_multiplier ((604800 + 31536000) / 2) 604800 31536000 ≤ 15100 := by
  have hmid : calculate_weight_multiplier ((604800 + 31536000) / 2) 604800 31536000
      = 15000 := by decide
  rcases eq_or_lt_of_le h with heq | hlt
  · subst heq
    refine ⟨⟨?_, ?_⟩, ?_, ?_, ?_, ?_, ?_, ?_⟩
    · rw [wm_of_eq]
    · rw [wm_of_eq]
      norm_num
    · rw [wm_of_eq]
    · intro _
      rw [wm_of_eq]
    · intro hc _
      exact absurd hc (lt_irrefl mn)
    · intro d1 d2 _
      rw [wm_of_eq, wm_of_eq]
    · rw [hmid]
      norm_num
    · rw [hmid]
      norm_num
  · by_cases hR : mx - mn < 2 ^ 63
    · have hq : ∀ e : Int,
          (min (max e mn) mx - mn).toNat * 10000 / (mx - mn).toNat ≤ 10000 := by
        intro e
        obtain ⟨hD1, hD2⟩ := clamp_bounds e mn mx h
        have hPle : (min (max e mn) mx - mn).toNat ≤ (mx - mn).toNat := by omega
        calc (min (max e mn) mx - mn).toNat * 10000 / (mx - mn).toNat
            ≤ (mx - mn).toNat * 10000 / (mx - mn).toNat :=
              Nat.div_le_div_right (Nat.mul_le_mul_right _ hPle)
        _ = 10000 := Nat.mul_div_cancel_left _ (by omega)
      refine ⟨⟨?_, ?_⟩, ?_, ?_, ?_, ?_, ?_, ?_⟩
      · rw [calculate_weight_multiplier_eq d mn mx hlt hR]
        exact Nat.le_add_right _ _
      · rw [calculate_weight_multiplier_eq d mn mx hlt hR]
        have := hq d
        omega
      · rw [calculate_weight_multiplier_eq mn mn mx hlt hR]
        rw [max_self, min_eq_left h, sub_self]
        norm_num
      · intro hc
        exact absurd hc (by omega)
      · intro _ _
        rw [calculate_weight_multiplier_eq mx mn mx hlt hR]
        rw [max_eq_left h, min_self]
        rw [Nat.mul_div_cancel_left _ (show 0 < (mx - mn).toNat by omega)]
      · intro d1 d2 h12
        rw [calculate_weight_multiplier_eq d1 mn mx hlt hR,
          calculate_weight_multiplier_eq d2 mn mx hlt hR]
        have hcl : min (max d1 mn) mx ≤ min (max d2 mn) mx :=
          min_le_min (max_le_max h12 le_rfl) le_rfl
        have : (min (max d1 mn) mx - mn).toNat ≤ (min (max d2 mn) mx - mn).toNat := by
          omega
        exact Nat.add_le_add_left
          (Nat.div_le_div_right (Nat.mul_le_mul_right _ this)) _
      · rw [hmid]
        norm_num
      · rw [hmid]
        norm_num
    · push_neg at hR
      have hall : ∀ e : Int, calculate_weight_multiplier e mn mx = 10000 := fun e =>
        calculate_weight_multiplier_wrap e mn mx hmn hmx hR
      refine ⟨⟨?_, ?_⟩, ?_, ?_, ?_, ?_, ?_, ?_⟩
      · rw [hall d]
      · rw [hall d]
        norm_num
      · rw [hall mn]
      · intro _
        rw [hall d]
      · intro _ hc
        exact absurd hc (by omega)
      · intro d1 d2 _
        rw [hall d1, hall d2]
      · rw [hmid]
        norm_num
      · rw [hmid]
        norm_num

/-- C7 witness: the amended properties instantiated at the default pool
bounds. -/
theorem calculate_weight_multiplier_props_witness :
    10000 ≤ calculate_weight_multiplier 0 604800 31536000 ∧
    calculate_weight_multiplier 0 604800 31536000 ≤ 20000 ∧
    calculate_weight_multiplier 31536000 604800 31536000 = 20000 ∧
    14900 ≤ calculate_weight_multiplier 16070400 604800 31536000 := by
  obtain ⟨⟨b1, b2⟩, -, -, h20, -, m1, -⟩ :=
    calculate_weight_multiplier_props 0 604800 31536000 (by decide) (by decide) (by decide)
  exact ⟨b1, b2, h20 (by decide) (by decide), m1⟩

/-- Superadditivity of floor division: the sum of floors is at most the floor
of the sum. -/
theorem div_add_div_le (a b c : Nat) : a / c + b / c ≤ (a + b) / c := by
  rcases Nat.eq_zero_or_pos c with h | h
  · subst h
    simp
  · rw [Nat.le_div_iff_mul_le h, Nat.add_mul]
    exact Nat.add_le_add (Nat.div_mul_le_self a c) (Nat.div_mul_le_self b c)

/-- Inductive core for the reward-debt invariant restricted to stake and
claim operations: the accumulator only grows, a stake adds matching floored
debt for the added weighted stake (superadditivity), and a claim resets the
debt to exactly the floored accrual. -/
theorem debt_le_accrual_aux {s : SysState} (h : ReachableSC s) :
    ∀ pu ∈ s.positions, pu.2.reward_debt ≤
      pu.2.weighted_stake * s.pool.accumulated_reward_per_share / PRECISION := by
  induction h with
  | init rate mn mx t0 h1 h2 h3 h4 h5 h6 =>
      intro pu hpu
      simp at hpu
  | stake s s' uid a ld t hr ha hld ht hop ih =>
      obtain ⟨p2, u2, hh, rfl⟩ := stakeOp_ok hop
      obtain ⟨pool1, us1, hu, hup, hfin, -, -, -, -⟩ := stake_handler_ok hh
      obtain ⟨hP, -, -, -, -, hU⟩ := stake_finish_ok hfin
      obtain ⟨-, hs1, hw1, hrd1, -, -, -⟩ := stake_update_position_ok hup
      obtain ⟨-, -, -, -, -, -, hacc⟩ := update_rewards_ok_inv hu
      have hPacc : p2.accumulated_reward_per_share = pool1.accumulated_reward_per_share := by
        rw [hP]
      intro pu hpu
      show pu.2.reward_debt ≤ pu.2.weighted_stake * p2.accumulated_reward_per_share / PRECISION
      rcases mem_setPos hpu with heq | hold
      · subst heq
        have hbase : (getPosD s uid).reward_debt ≤
            (getPosD s uid).weighted_stake * s.pool.accumulated_reward_per_share /
              PRECISION := by
          cases hlook : lookupPos s.positions uid with
          | none =>
              unfold getPosD
              rw [hlook]
              simp [defaultUserStake]
          | some u =>
              have := ih (uid, u) (lookupPos_mem hlook)
              unfold getPosD
              rw [hlook]
              simpa using this
        have e1 : u2.reward_debt = (getPosD s uid).reward_debt +
            a * calculate_weight_multiplier ld pool1.min_lock_duration
              pool1.max_lock_duration / 10000 % U64MOD *
              pool1.accumulated_reward_per_share / PRECISION := by
          rw [hU, hrd1]
        have e2 : u2.weighted_stake = (getPosD s uid).weighted_stake +
            a * calculate_weight_multiplier ld pool1.min_lock_duration
              pool1.max_lock_duration / 10000 % U64MOD := by
          rw [hU, hw1]
        show u2.reward_debt ≤ u2.weighted_stake * p2.accumulated_reward_per_share / PRECISION
        rw [e1, e2, hPacc, Nat.add_mul]
        have step1 : (getPosD s uid).reward_debt ≤
            (getPosD s uid).weighted_stake * pool1.accumulated_reward_per_share /
              PRECISION :=
          le_trans hbase (Nat.div_le_div_right (Nat.mul_le_mul_left _ hacc))
        exact le_trans (Nat.add_le_add_right step1 _) (div_add_div_le _ _ _)
      · have hPmono : s.pool.accumulated_reward_per_share ≤
            p2.accumulated_reward_per_share := by
          rw [hPacc]
          exact hacc
        exact le_trans (ih pu hold)
          (Nat.div_le_div_right (Nat.mul_le_mul_left _ hPmono))
  | claim s s' uid t vb hr ht hvb hop ih =>
      obtain ⟨p2, u2, hh, rfl⟩ := claimOp_ok hop
      obtain ⟨pool1, pending, hu, -, -, -, -, -, hP, hU⟩ := claim_rewards_handler_ok hh
      obtain ⟨-, -, -, -, -, -, hacc⟩ := update_rewards_ok_inv hu
      intro pu hpu
      show pu.2.reward_debt ≤ pu.2.weighted_stake * p2.accumulated_reward_per_share / PRECISION
      rcases mem_setPos hpu with heq | hold
      · subst heq
        show u2.reward_debt ≤ u2.weighted_stake * p2.accumulated_reward_per_share / PRECISION
        rw [hU, hP]
      · have hPmono : s.pool.accumulated_reward_per_share ≤
            p2.accumulated_reward_per_share := by
          rw [hP]
          exact hacc
        exact le_trans (ih pu hold)
          (Nat.div_le_div_right (Nat.mul_le_mul_left _ hPmono))

/-- C4 amended: in every state reachable by stake and claim operations only
(no unstake), every position satisfies
`reward_debt ≤ weighted_stake * accumulated_reward_per_share / 10^12`, so the
defensive clamp in calculate_pending_rewards is never exercised. -/
theorem debt_clamp_never_needed (s : SysState) (h : ReachableSC s) :
    debtInvariantB s = true := by
  unfold debtInvariantB
  rw [List.all_eq_true]
  intro pu hpu
  exact decide_eq_true (debt_le_accrual_aux h pu hpu)

/-- exS2 after user 0 unstakes 1 of its 2 units at time 1: the proportional
floor division removes 0 of the reward debt, leaving debt 1 against a floored
accrual of 1 * 500000000000 / 10^12 = 0. -/
def exS4 : SysState :=
  { pool :=
      { total_staked := 1
        total_weighted_stake := 1
        reward_rate := 1
        accumulated_reward_per_share := 500000000000
        last_reward_time := 1
        min_lock_duration := 0
        max_lock_duration := 0
        paused := false }
    positions := [(0,
      { staked_amount := 1
        weighted_stake := 1
        lock_end_time := 0
        lock_duration := 0
        reward_debt := 1
        total_claimed := 1
        stake_start_time := 0 })] }

/-- The claimed example state is reachable. -/
theorem exS2_reachable : Reachable exS2 :=
  Reachable.claim exS1 exS2 0 1 1 exS1_reachable (by decide) (by decide) exS1_claim

/-- C4 counterexample: after stake, claim, and a partial unstake, a reachable
position has reward_debt = 1 > 0 = weighted_stake * accumulator / 10^12, so
the pending-reward subtraction would go negative and the defensive clamp is
exercised. -/
theorem pending_underflow_cex :
    Reachable exS4 ∧ debtInvariantB exS4 = false :=
  ⟨Reachable.unstake exS2 exS4 0 1 1 exS2_reachable (by decide) (by decide) rfl,
   by decide⟩

/-- The claimed example state is reachable without any unstake. -/
theorem exS2_reachableSC : ReachableSC exS2 :=
  ReachableSC.claim exS1 exS2 0 1 1
    (ReachableSC.stake exS0 exS1 0 2 0 0
      (ReachableSC.init 1 0 0 0 (by decide) (by decide) (by decide) (by decide)
        le_rfl le_rfl)
      (by decide) (by decide) (by decide) exS0_stake)
    (by decide) (by decide) exS1_claim

/-- C4 witness: the stake-then-claim concrete state satisfies the debt
invariant. -/
theorem debt_clamp_never_needed_witness : debtInvariantB exS2 = true :=
  debt_clamp_never_needed exS2 exS2_reachableSC

/-- Range of the weight multiplier for validly configured bounds
(`0 ≤ min ≤ max < 2^63`): always within [10000, 20000]. -/
theorem wm_range (d mn mx : Int) (h0 : 0 ≤ mn) (h : mn ≤ mx) (hmx : mx < 2 ^ 63) :
    10000 ≤ calculate_weight_multiplier d mn mx ∧
      calculate_weight_multiplier d mn mx ≤ 20000 := by
  rcases eq_or_lt_of_le h with heq | hlt
  · subst heq
    rw [wm_of_eq]
    norm_num
  · have hR : mx - mn < 2 ^ 63 := by omega
    rw [calculate_weight_multiplier_eq d mn mx hlt hR]
    obtain ⟨hD1, hD2⟩ := clamp_bounds d mn mx h
    have hPle : (min (max d mn) mx - mn).toNat ≤ (mx - mn).toNat := by omega
    have hq : (min (max d mn) mx - mn).toNat * 10000 / (mx - mn).toNat ≤ 10000 := by
      calc (min (max d mn) mx - mn).toNat * 10000 / (mx - mn).toNat
          ≤ (mx - mn).toNat * 10000 / (mx - mn).toNat :=
            Nat.div_le_div_right (Nat.mul_le_mul_right _ hPle)
      _ = 10000 := Nat.mul_div_cancel_left _ (by omega)
    constructor
    · exact Nat.le_add_right _ _
    · omega

/-- Inductive core for the weighted-stake domination invariant under
sub-2^63 stake amounts: the pool's validated lock bounds persist, each stake
adds a weighted amount of at least the raw amount (multiplier ≥ 10000 bps,
no u64 truncation), and unstake's floored proportional removal respects the
inequality. -/
theorem weighted_ge_staked_aux {s : SysState} (h : ReachableSmallStakes s) :
    (0 ≤ s.pool.min_lock_duration ∧
      s.pool.min_lock_duration ≤ s.pool.max_lock_duration ∧
      s.pool.max_lock_duration < 2 ^ 63) ∧
    ∀ pu ∈ s.positions, pu.2.staked_amount ≤ pu.2.weighted_stake ∧
      pu.2.weighted_stake < U64MOD := by
  induction h with
  | init rate mn mx t0 h1 h2 h3 h4 h5 h6 =>
      refine ⟨⟨h5, h6, h3.2⟩, ?_⟩
      intro pu hpu
      simp at hpu
  | stake s s' uid a ld t hr ha hld ht hop ih =>
      obtain ⟨⟨hb1, hb2, hb3⟩, ihpos⟩ := ih
      obtain ⟨p2, u2, hh, rfl⟩ := stakeOp_ok hop
      obtain ⟨pool1, us1, hu, hup, hfin, -, -, -, -⟩ := stake_handler_ok hh
      obtain ⟨hP, -, -, -, hwslt, hU⟩ := stake_finish_ok hfin
      obtain ⟨-, hs1, hw1, -, -, -, -⟩ := stake_update_position_ok hup
      obtain ⟨-, -, -, hmin1, hmax1, -, -⟩ := update_rewards_ok_inv hu
      set wm := calculate_weight_multiplier ld pool1.min_lock_duration
        pool1.max_lock_duration with hwmdef
      have hpmin : p2.min_lock_duration = s.pool.min_lock_duration := by
        rw [hP]
        exact hmin1
      have hpmax : p2.max_lock_duration = s.pool.max_lock_duration := by
        rw [hP]
        exact hmax1
      have hwm : 10000 ≤ wm ∧ wm ≤ 20000 := by
        rw [hwmdef]
        exact wm_range ld pool1.min_lock_duration pool1.max_lock_duration
          (by rw [hmin1]; exact hb1) (by rw [hmin1, hmax1]; exact hb2)
          (by rw [hmax1]; exact hb3)
      have h2a : a * 20000 / 10000 = a * 2 := by
        rw [show (20000 : Nat) = 2 * 10000 from rfl, ← Nat.mul_assoc]
        exact Nat.mul_div_cancel _ (by norm_num)
      have hwa_le : a * wm / 10000 ≤ a * 2 := by
        rw [← h2a]
        exact Nat.div_le_div_right (Nat.mul_le_mul_left _ hwm.2)
      have hwa_lt : a * wm / 10000 < U64MOD := by
        unfold U64MOD
        omega
      have hwa_eq : a * wm / 10000 % U64MOD = a * wm / 10000 := Nat.mod_eq_of_lt hwa_lt
      have hwa_ge : a ≤ a * wm / 10000 := by
        have h1 : a * 10000 / 10000 ≤ a * wm / 10000 :=
          Nat.div_le_div_right (Nat.mul_le_mul_left _ hwm.1)
        rwa [Nat.mul_div_cancel _ (by norm_num)] at h1
      refine ⟨⟨by rw [hpmin]; exact hb1, by rw [hpmin, hpmax]; exact hb2,
        by rw [hpmax]; exact hb3⟩, ?_⟩
      intro pu hpu
      rcases mem_setPos hpu with heq | hold
      · subst heq
        have hbase : (getPosD s uid).staked_amount ≤ (getPosD s uid).weighted_stake := by
          cases hlook : lookupPos s.positions uid with
          | none =>
              unfold getPosD
              rw [hlook]
              simp [defaultUserStake]
          | some u =>
              have := ihpos (uid, u) (lookupPos_mem hlook)
              unfold getPosD
              rw [hlook]
              simpa using this.1
        have e1 : u2.staked_amount = (getPosD s uid).staked_amount + a := by
          rw [hU, hs1]
        have e2 : u2.weighted_stake = (getPosD s uid).weighted_stake +
            a * wm / 10000 % U64MOD := by
          rw [hU, hw1]
        constructor
        · show u2.staked_amount ≤ u2.weighted_stake
          rw [e1, e2, hwa_eq]
          exact Nat.add_le_add hbase hwa_ge
        · show u2.weighted_stake < U64MOD
          rw [e2, ← hw1]
          exact hwslt
      · exact ihpos pu hold
  | unstake s s' uid a t hr ha ht hop ih =>
      obtain ⟨⟨hb1, hb2, hb3⟩, ihpos⟩ := ih
      obtain ⟨p2, u2, hh, rfl⟩ := unstakeOp_ok hop
      obtain ⟨pool1, hu, hane, halea, hlock, -, -, -, -, hP, hU⟩ := unstake_handler_ok hh
      obtain ⟨-, -, -, hmin1, hmax1, -, -⟩ := update_rewards_ok_inv hu
      have hpmin : p2.min_lock_duration = s.pool.min_lock_duration := by
        rw [hP]
        exact hmin1
      have hpmax : p2.max_lock_duration = s.pool.max_lock_duration := by
        rw [hP]
        exact hmax1
      refine ⟨⟨by rw [hpmin]; exact hb1, by rw [hpmin, hpmax]; exact hb2,
        by rw [hpmax]; exact hb3⟩, ?_⟩
      intro pu hpu
      rcases mem_setPos hpu with heq | hold
      · subst heq
        have hbase : (getPosD s uid).staked_amount ≤ (getPosD s uid).weighted_stake ∧
            (getPosD s uid).weighted_stake < U64MOD := by
          cases hlook : lookupPos s.positions uid with
          | none =>
              exfalso
              apply hane
              have hz : (getPosD s uid).staked_amount = 0 := by
                unfold getPosD
                rw [hlook]
                rfl
              omega
          | some u =>
              have := ihpos (uid, u) (lookupPos_mem hlook)
              unfold getPosD
              rw [hlook]
              simpa using this
        obtain ⟨hsw, hwlt⟩ := hbase
        have hspos : 0 < (getPosD s uid).staked_amount := by omega
        set w := (getPosD s uid).weighted_stake with hwdef
        set sk := (getPosD s uid).staked_amount with hskdef
        have hwr_le : a * w / sk ≤ w := by
          calc a * w / sk ≤ sk * w / sk :=
                Nat.div_le_div_right (Nat.mul_le_mul_right _ halea)
          _ = w := Nat.mul_div_cancel_left _ hspos
        have hwr_eq : a * w / sk % U64MOD = a * w / sk := Nat.mod_eq_of_lt (by omega)
        have hkey : a * w / sk ≤ a + (w - sk) := by
          have hmul : a * w ≤ (a + (w - sk)) * sk := by
            have expand : a * w = a * sk + a * (w - sk) := by
              rw [← Nat.mul_add]
              congr 1
              omega
            have step : a * (w - sk) ≤ (w - sk) * sk := by
              rw [Nat.mul_comm]
              exact Nat.mul_le_mul_left _ halea
            rw [expand, Nat.add_mul, Nat.mul_comm a sk]
            exact Nat.add_le_add le_rfl step
          calc a * w / sk ≤ (a + (w - sk)) * sk / sk := Nat.div_le_div_right hmul
          _ = a + (w - sk) := Nat.mul_div_cancel _ hspos
        have e1 : u2.staked_amount = sk - a := by rw [hU]
        have e2 : u2.weighted_stake = w - a * w / sk % U64MOD := by rw [hU]
        constructor
        · show u2.staked_amount ≤ u2.weighted_stake
          rw [e1, e2, hwr_eq]
          omega
        · show u2.weighted_stake < U64MOD
          rw [e2]
          omega
      · exact ihpos pu hold
  | claim s s' uid t vb hr ht hvb hop ih =>
      obtain ⟨⟨hb1, hb2, hb3⟩, ihpos⟩ := ih
      obtain ⟨p2, u2, hh, rfl⟩ := claimOp_ok hop
      obtain ⟨pool1, pending, hu, hs0, -, -, -, -, hP, hU⟩ := claim_rewards_handler_ok hh
      obtain ⟨-, -, -, hmin1, hmax1, -, -⟩ := update_rewards_ok_inv hu
      have hpmin : p2.min_lock_duration = s.pool.min_lock_duration := by
        rw [hP]
        exact hmin1
      have hpmax : p2.max_lock_duration = s.pool.max_lock_duration := by
        rw [hP]
        exact hmax1
      refine ⟨⟨by rw [hpmin]; exact hb1, by rw [hpmin, hpmax]; exact hb2,
        by rw [hpmax]; exact hb3⟩, ?_⟩
      intro pu hpu
      rcases mem_setPos hpu with heq | hold
      · subst heq
        have hbase : (getPosD s uid).staked_amount ≤ (getPosD s uid).weighted_stake ∧
            (getPosD s uid).weighted_stake < U64MOD := by
          cases hlook : lookupPos s.positions uid with
          | none =>
              exfalso
              apply hs0
              unfold getPosD
              rw [hlook]
              rfl
          | some u =>
              have := ihpos (uid, u) (lookupPos_mem hlook)
              unfold getPosD
              rw [hlook]
              simpa using this
        constructor
        · show u2.staked_amount ≤ u2.weighted_stake
          rw [hU]
          exact hbase.1
        · show u2.weighted_stake < U64MOD
          rw [hU]
          exact hbase.2
      · exact ihpos pu hold

/-- C10 amended: in every state reachable when each individual stake amount
is below 2^63 (so the u128-to-u64 narrowing of the weighted amount cannot
truncate), every position satisfies `staked_amount ≤ weighted_stake`. -/
theorem weighted_dominates_staked (s : SysState) (h : ReachableSmallStakes s) :
    weightedGeStakedB s = true := by
  unfold weightedGeStakedB
  rw [List.all_eq_true]
  intro pu hpu
  exact decide_eq_true ((weighted_ge_staked_aux h).2 pu hpu).1

/-- Fresh pool with the default 7-day / 365-day lock bounds and zero reward
rate, opened at time 0. -/
def exU0 : SysState := { pool := initPool 0 604800 31536000 0, positions := [] }

/-- exU0 after user 0 stakes 2^63 units at the maximum lock duration: the
weighted amount 2^63 * 20000 / 10000 = 2^64 is narrowed `as u64` to 0, so the
position ends with weighted_stake 0 under staked_amount 2^63. -/
def exU1 : SysState :=
  { pool :=
      { total_staked := 9223372036854775808
        total_weighted_stake := 0
        reward_rate := 0
        accumulated_reward_per_share := 0
        last_reward_time := 0
        min_lock_duration := 604800
        max_lock_duration := 31536000
        paused := false }
    positions := [(0,
      { staked_amount := 9223372036854775808
        weighted_stake := 0
        lock_end_time := 31536000
        lock_duration := 31536000
        reward_debt := 0
        total_claimed := 0
        stake_start_time := 0 })] }

/-- C10 counterexample: a reachable position (single stake of 2^63 at
maximum lock) has weighted_stake = 0 < staked_amount, because the weighted
amount computation truncates through the unchecked `as u64` cast. -/
theorem weighted_lt_staked_cex :
    Reachable exU1 ∧ weightedGeStakedB exU1 = false :=
  ⟨Reachable.stake exU0 exU1 0 9223372036854775808 31536000 0
      (Reachable.init 0 604800 31536000 0 (by decide) (by decide) (by decide) (by decide)
        (by decide) (by decide))
      (by decide) (by decide) (by decide) rfl,
   by decide⟩

/-- The one-stake example state is reachable with sub-2^63 stakes. -/
theorem exS1_reachableSmall : ReachableSmallStakes exS1 :=
  ReachableSmallStakes.stake exS0 exS1 0 2 0 0
    (ReachableSmallStakes.init 1 0 0 0 (by decide) (by decide) (by decide) (by decide)
      le_rfl le_rfl)
    (by decide) (by decide) (by decide) exS0_stake

/-- C10 witness: the concrete one-stake state satisfies the domination
invariant. -/
theorem weighted_dominates_staked_witness : weightedGeStakedB exS1 = true :=
  weighted_dominates_staked exS1 exS1_reachableSmall
